import Mathlib

/-!
# Verification of the yatg turtle-graphics engine

Shallow embedding of the turtle-graphics engine from the yatg repository.
The repository ships the same engine in near-duplicate variants:
`turtle.hpp` (single header, field dimensions declared `unsigned int`) and
`include/yatg/yatg_all.hpp` / `include/yatg/yatg.cpp` / `include/yatg/turtle.cpp`
(field dimensions declared `int`).  Apart from those types and one missing
`return` statement the member functions are textually identical across the
variants.

The embedding below follows the signed-`int` variants
(`include/yatg/yatg_all.hpp`), which are the executable rendering of the
design: in `turtle.hpp` the `unsigned` field dimensions make the bounds check
of `drawPixel` and the scanline loop of `endFill` compare a signed coordinate
against a huge unsigned value (C++ usual arithmetic conversions), so that
variant never draws anything.  That behaviour is embedded separately and
faithfully as `drawPixelU` / `pixelOOBU` (32-bit unsigned arithmetic made
explicit with `% 2^32`).

C `double` values (positions, headings, polygon vertices) are modelled as ℚ.
The library calls `cos`/`sin` only inside `forward`; those are abstracted as
function parameters, so every theorem about state restoration holds for any
interpretation of the trigonometric functions.  Machine integers are modelled
as ℕ/ℤ, with explicit `% 2^32` / `% 2^64` wrapping exactly where the source
performs unsigned arithmetic.
-/

/-- `struct rgb { unsigned char red, green, blue; }` — one pixel.
Channels are 8-bit unsigned chars; stores go through `% 256`. -/
structure Rgb where
  red : ℕ
  green : ℕ
  blue : ℕ
deriving DecidableEq, Repr

/-- The colour `memset(image, 255, …)` initializes the buffer to. -/
def whiteRgb : Rgb := ⟨255, 255, 255⟩

/-- C++ conversion `int → unsigned char` (modular, always defined). -/
def toUChar (x : ℤ) : ℕ := (x % 256).toNat

/-- C++ conversion `int → unsigned int` (modular, always defined). -/
def toU32 (x : ℤ) : ℕ := (x % (2 ^ 32 : ℤ)).toNat

/-- C++ conversion of a 32-bit unsigned value to `int`
(wrap-around, as implemented by the target compilers and defined since C++20). -/
def toI32 (n : ℕ) : ℤ :=
  let m : ℕ := n % 2 ^ 32
  if m < 2 ^ 31 then (m : ℤ) else (m : ℤ) - 2 ^ 32

/-- C `round` applied to a ℚ-modelled double then cast to `int`:
rounds half away from zero. -/
def roundC (q : ℚ) : ℤ := if 0 ≤ q then ⌊q + 1 / 2⌋ else ⌈q - 1 / 2⌉

/-- C++ implicit conversion `double → int`: truncation toward zero. -/
def truncC (q : ℚ) : ℤ := if 0 ≤ q then ⌊q⌋ else ⌈q⌉

/-- `struct turtleState` / `turtle_t`: pose, colours and flags of the turtle. -/
structure TState where
  xpos : ℚ
  ypos : ℚ
  heading : ℚ
  strokeColor : Rgb
  fillColor : Rgb
  pendown : Bool
  filled : Bool
deriving DecidableEq, Repr

/-- The whole engine object (`class Turtle`).  The pixel grid is the flat
array `mainTurtleImage` (row-major, `fieldWidth * fieldHeight` entries).
The polygon vertex arrays are modelled as lists: the C code only ever reads
indices `< mainTurtlePolyVertexCount` and only appends at that index, so the
list of live vertices is a faithful model and its length is the vertex count.
`diagnostics` counts the `fprintf(stderr, …)` pixel-out-of-bounds messages the
engine has emitted (an observable of the model, not a C field).
`numPixelsOutOfBounds` is a 64-bit unsigned counter, kept `% 2^64`. -/
structure Eng where
  mainTurtle : TState
  backupTurtle : TState
  image : List Rgb
  fieldWidth : ℕ
  fieldHeight : ℕ
  saveFrames : Bool
  frameCount : ℤ
  frameInterval : ℤ
  pixelCount : ℤ
  polyX : List ℚ
  polyY : List ℚ
  numPixelsOutOfBounds : ℕ
  diagnostics : ℕ
deriving DecidableEq, Repr

/-- `Turtle::reset()`: centre of the field, heading 0, black stroke,
green fill, pen down, fill off, vertex list cleared. -/
def resetState : TState :=
  { xpos := 0, ypos := 0, heading := 0
    strokeColor := ⟨0, 0, 0⟩
    fillColor := ⟨0, 255, 0⟩
    pendown := true
    filled := false }

/-- The constructor `Turtle(width, height)`: buffer of `width*height` pixels
initialized to white (`memset 255`), video off, state reset, and (in
`turtle.hpp`) `backup()` taken at the initial position.
`mainFieldFrameInterval` is field-initialized to 10. -/
def mkEng (width height : ℕ) : Eng :=
  { mainTurtle := resetState
    backupTurtle := resetState
    image := List.replicate (width * height) whiteRgb
    fieldWidth := width
    fieldHeight := height
    saveFrames := false
    frameCount := 0
    frameInterval := 10
    pixelCount := 0
    polyX := []
    polyY := []
    numPixelsOutOfBounds := 0
    diagnostics := 0 }

/-- The bounds check of `Turtle::drawPixel` in the signed-`int` variants:
`x < (-w / 2) || x > (w / 2) || y < (-h / 2) || y > (h / 2)`
(`w`, `h` are nonnegative, so C truncating division agrees with ℕ division). -/
def pixelOOB (w h : ℕ) (x y : ℤ) : Bool :=
  x < -((w / 2 : ℕ) : ℤ) || x > ((w / 2 : ℕ) : ℤ) ||
  y < -((h / 2 : ℕ) : ℤ) || y > ((h / 2 : ℕ) : ℤ)

/-- The bounds check of `Turtle::drawPixel` in `turtle.hpp`, where
`mainFieldWidth`/`mainFieldHeight` are `unsigned int`: by the usual arithmetic
conversions the signed coordinate is converted to `unsigned int` and
`-mainFieldWidth` is computed modulo `2^32`, so the compared threshold
`(-w)/2` is `(2^32 - w) / 2`. -/
def pixelOOBU (w h : ℕ) (x y : ℤ) : Bool :=
  toU32 x < (2 ^ 32 - w % 2 ^ 32) % 2 ^ 32 / 2 || toU32 x > w % 2 ^ 32 / 2 ||
  toU32 y < (2 ^ 32 - h % 2 ^ 32) % 2 ^ 32 / 2 || toU32 y > h % 2 ^ 32 / 2

/-- The out-of-bounds branch of `Turtle::drawPixel`: the write is dropped,
the 64-bit counter is pre-incremented, and a diagnostic is printed when the
incremented counter is `< 100`. -/
def oobBranch (t : Eng) : Eng :=
  let c := (t.numPixelsOutOfBounds + 1) % 2 ^ 64
  { t with
    numPixelsOutOfBounds := c
    diagnostics := if c < 100 then t.diagnostics + 1 else t.diagnostics }

/-- The video-frame bookkeeping at the end of `Turtle::drawPixel`:
`if (mainFieldSaveFrames && mainFieldPixelCount++ % mainFieldFrameInterval == 0) saveFrame();`
(`&&` short-circuits, so the pixel counter is touched only when video is on;
`saveFrame` bumps the frame counter and writes a file). -/
def frameStep (t : Eng) : Eng :=
  if t.saveFrames then
    let t' := { t with pixelCount := t.pixelCount + 1 }
    if t.pixelCount.tmod t.frameInterval = 0 then
      { t' with frameCount := t'.frameCount + 1 }
    else t'
  else t

/-- `Turtle::drawPixel(int x, int y)` (signed-`int` variants): bounds check
against the centred range, then flat index `w*(y + h/2) + (x + w/2)`, written
with the stroke colour when `0 ≤ idx < w*h`.  In the reachable in-bounds
branch all quantities are small, so plain ℤ arithmetic models the C `int`
arithmetic exactly. -/
def drawPixel (t : Eng) (x y : ℤ) : Eng :=
  if pixelOOB t.fieldWidth t.fieldHeight x y then
    oobBranch t
  else
    let idx : ℤ := (t.fieldWidth : ℤ) * (y + ((t.fieldHeight / 2 : ℕ) : ℤ))
      + (x + ((t.fieldWidth / 2 : ℕ) : ℤ))
    let t' :=
      if 0 ≤ idx ∧ idx < ((t.fieldWidth * t.fieldHeight : ℕ) : ℤ) then
        { t with image := t.image.set idx.toNat t.mainTurtle.strokeColor }
      else t
    frameStep t'

/-- `Turtle::drawPixel` as compiled from `turtle.hpp`, where the field
dimensions are `unsigned int`: the bounds test, the index computation and the
index guard are all performed in 32-bit unsigned arithmetic
(`idx` is the unsigned value converted to `int`; `idx >= 0` is a signed
comparison, `idx < w*h` converts `idx` back to unsigned). -/
def drawPixelU (t : Eng) (x y : ℤ) : Eng :=
  if pixelOOBU t.fieldWidth t.fieldHeight x y then
    oobBranch t
  else
    let u : ℕ := (t.fieldWidth % 2 ^ 32 * toU32 (y + ((t.fieldHeight % 2 ^ 32 / 2 : ℕ) : ℤ))
      + toU32 (x + ((t.fieldWidth % 2 ^ 32 / 2 : ℕ) : ℤ))) % 2 ^ 32
    let idx : ℤ := toI32 u
    let t' :=
      if 0 ≤ idx ∧ toU32 idx < t.fieldWidth * t.fieldHeight % 2 ^ 32 then
        { t with image := t.image.set idx.toNat t.mainTurtle.strokeColor }
      else t
    frameStep t'

/-- `Turtle::fillPixel(int x, int y)` as written in `turtle.hpp`
(`unsigned` field dimensions, so the index computation wraps `% 2^32` and is
fully defined; the signed variants compute the same value whenever the
mathematical index fits in `int`): no coordinate bounds check, only the guard
`0 ≤ idx < w*h` on the flat index, then the fill colour is written. -/
def fillPixel (t : Eng) (x y : ℤ) : Eng :=
  let u : ℕ := (t.fieldWidth % 2 ^ 32 * toU32 (y + ((t.fieldHeight % 2 ^ 32 / 2 : ℕ) : ℤ))
    + toU32 (x + ((t.fieldWidth % 2 ^ 32 / 2 : ℕ) : ℤ))) % 2 ^ 32
  let idx : ℤ := toI32 u
  if 0 ≤ idx ∧ toU32 idx < t.fieldWidth * t.fieldHeight % 2 ^ 32 then
    { t with image := t.image.set idx.toNat t.mainTurtle.fillColor }
  else t

/-- Reading the pixel addressed by centred coordinate `(x, y)`:
the buffer cell at flat index `w*(y + h/2) + (x + w/2)` (white-filled buffer
default for an index outside the list, which cannot happen for in-range
reads). -/
def readPixel (t : Eng) (x y : ℤ) : Rgb :=
  t.image.getD ((t.fieldWidth : ℤ) * (y + ((t.fieldHeight / 2 : ℕ) : ℤ))
    + (x + ((t.fieldWidth / 2 : ℕ) : ℤ))).toNat whiteRgb

/-- Plot a list of points with `drawPixel`, in order (the shape of every
pixel-plotting loop that uses the stroke colour). -/
def drawPixels (t : Eng) (ps : List (ℤ × ℤ)) : Eng :=
  ps.foldl (fun s p => drawPixel s p.1 p.2) t

/-- Plot a list of points with `fillPixel`, in order (the shape of every
pixel-plotting loop that uses the fill colour). -/
def fillPixels (t : Eng) (ps : List (ℤ × ℤ)) : Eng :=
  ps.foldl (fun s p => fillPixel s p.1 p.2) t

/-! ## Bresenham line drawing (`Turtle::drawLine`) -/

/-- One iteration of the dominant-axis loop of `Turtle::drawLine`:
from `(x, y, err)` compute the next plotted point and error term.
For the more-horizontal branch `maj`/`minor` are `absX`/`absY` and the step
offsets are `(offX, offY)`; for the more-vertical branch they are swapped. -/
def lineStep (maj minor : ℤ) (offMaj offMin : ℤ)
    (st : ℤ × ℤ × ℤ) : ℤ × ℤ × ℤ :=
  let (ma, mi, err) := st
  let err' := err - minor
  if err' < 0 then (ma + offMaj, mi + offMin, err' + maj)
  else (ma + offMaj, mi, err')

/-- Iterate `lineStep` `n` times, collecting the visited `(major, minor)`
points in order.  The C loop `while (x != x1)` steps the dominant coordinate
by `±1` toward its target each iteration, so it executes exactly
`|x1 - x0|` (resp. `|y1 - y0|`) times; the fuel below is that trip count. -/
def lineRun (maj minor offMaj offMin : ℤ) :
    ℕ → ℤ × ℤ × ℤ → List (ℤ × ℤ)
  | 0, _ => []
  | n + 1, st =>
    let st' := lineStep maj minor offMaj offMin st
    (st'.1, st'.2.1) :: lineRun maj minor offMaj offMin n st'

/-- The exact sequence of `drawPixel(x, y)` calls issued by
`Turtle::drawLine(x0, y0, x1, y1)`: the start pixel first, then the
Bresenham walk along the dominant axis. -/
def linePoints (x0 y0 x1 y1 : ℤ) : List (ℤ × ℤ) :=
  let absX := |x1 - x0|
  let absY := |y1 - y0|
  let offX : ℤ := if x0 < x1 then 1 else -1
  let offY : ℤ := if y0 < y1 then 1 else -1
  (x0, y0) ::
    (if absX > absY then
      lineRun absX absY offX offY absX.toNat (x0, y0, absX / 2)
    else
      (lineRun absY absX offY offX absY.toNat (y0, x0, absY / 2)).map
        (fun p => (p.2, p.1)))

/-- `Turtle::drawLine`: plot every point of `linePoints` with `drawPixel`,
in order. -/
def drawLine (t : Eng) (x0 y0 x1 y1 : ℤ) : Eng :=
  drawPixels t (linePoints x0 y0 x1 y1)

/-! ## Turtle state machine operations -/

/-- `Turtle::backup()`. -/
def backupOp (t : Eng) : Eng := { t with backupTurtle := t.mainTurtle }

/-- `Turtle::restore()`. -/
def restoreOp (t : Eng) : Eng := { t with mainTurtle := t.backupTurtle }

/-- `Turtle::turnLeft(double angle)`: add the angle, then constrain the
heading to `[0, 360)` by at most one addition/subtraction of 360. -/
def turnLeft (t : Eng) (angle : ℚ) : Eng :=
  let h := t.mainTurtle.heading + angle
  let h' := if h < 0 then h + 360 else if h ≥ 360 then h - 360 else h
  { t with mainTurtle := { t.mainTurtle with heading := h' } }

/-- `Turtle::turnRight(double angle)`: the opposite of `turnLeft`. -/
def turnRight (t : Eng) (angle : ℚ) : Eng := turnLeft t (-angle)

/-- `Turtle::penUp()`. -/
def penUp (t : Eng) : Eng :=
  { t with mainTurtle := { t.mainTurtle with pendown := false } }

/-- `Turtle::penDown()`. -/
def penDown (t : Eng) : Eng :=
  { t with mainTurtle := { t.mainTurtle with pendown := true } }

/-- `Turtle::setPenColor(int, int, int)`: each component is stored into an
`unsigned char` (modular conversion). -/
def setPenColor (t : Eng) (r g b : ℤ) : Eng :=
  { t with mainTurtle := { t.mainTurtle with
      strokeColor := ⟨toUChar r, toUChar g, toUChar b⟩ } }

/-- `Turtle::setFillColor(int, int, int)`. -/
def setFillColor (t : Eng) (r g b : ℤ) : Eng :=
  { t with mainTurtle := { t.mainTurtle with
      fillColor := ⟨toUChar r, toUChar g, toUChar b⟩ } }

/-- `Turtle::setHeading(double)`: sets the heading without normalization. -/
def setHeading (t : Eng) (angle : ℚ) : Eng :=
  { t with mainTurtle := { t.mainTurtle with heading := angle } }

/-- `Turtle::beginFill()`: set the fill flag and clear the vertex list. -/
def beginFill (t : Eng) : Eng :=
  { t with mainTurtle := { t.mainTurtle with filled := true }
           polyX := [], polyY := [] }

/-- `Turtle::goTo(double x, double y)`: draw a line from the old to the new
position (rounded to integer pixels) if the pen is down, move, and append the
destination to the polygon vertex list when filling with the pen down and
below the 128-vertex capacity. -/
def goToD (t : Eng) (x y : ℚ) : Eng :=
  let t1 :=
    if t.mainTurtle.pendown then
      drawLine t (roundC t.mainTurtle.xpos) (roundC t.mainTurtle.ypos)
        (roundC x) (roundC y)
    else t
  let t2 := { t1 with mainTurtle := { t1.mainTurtle with xpos := x, ypos := y } }
  if t2.mainTurtle.filled ∧ t2.mainTurtle.pendown ∧ t2.polyY.length < 128 then
    { t2 with polyX := t2.polyX ++ [x], polyY := t2.polyY ++ [y] }
  else t2

/-- `Turtle::goTo(int x, int y)`: the integer overload delegates to the real
one. -/
def goToI (t : Eng) (x y : ℤ) : Eng := goToD t (x : ℚ) (y : ℚ)

/-- `Turtle::forward(int pixels)`: movement vector computed from the heading.
The source computes `cos(heading * M_PI / 180.0)` and
`sin(heading * M_PI / 180.0)` on doubles; `cosD`/`sinD` abstract those two
composite functions (degrees in, cosine/sine value out). -/
def forward (cosD sinD : ℚ → ℚ) (t : Eng) (pixels : ℤ) : Eng :=
  let dx := cosD t.mainTurtle.heading * pixels
  let dy := sinD t.mainTurtle.heading * pixels
  goToD t (t.mainTurtle.xpos + dx) (t.mainTurtle.ypos + dy)

/-- `Turtle::backward(int pixels)`: the opposite of `forward`. -/
def backward (cosD sinD : ℚ → ℚ) (t : Eng) (pixels : ℤ) : Eng :=
  forward cosD sinD t (-pixels)

/-- `Turtle::strafeLeft(int pixels)`: `turnLeft(90); forward(pixels); turnRight(90)`. -/
def strafeLeft (cosD sinD : ℚ → ℚ) (t : Eng) (pixels : ℤ) : Eng :=
  turnRight (forward cosD sinD (turnLeft t 90) pixels) 90

/-- `Turtle::strafeRight(int pixels)`: `turnRight(90); forward(pixels); turnLeft(90)`. -/
def strafeRight (cosD sinD : ℚ → ℚ) (t : Eng) (pixels : ℤ) : Eng :=
  turnLeft (forward cosD sinD (turnRight t 90) pixels) 90

/-- `Turtle::dot()`: draw a pixel at the rounded current location. -/
def dot (t : Eng) : Eng :=
  drawPixel t (roundC t.mainTurtle.xpos) (roundC t.mainTurtle.ypos)

/-- `Turtle::fillCircle(int x0, int y0, int radius)`: naive bounding-box scan,
`fillPixel(x, y)` for every `(x, y)` in the square with squared distance to
the centre strictly below `radius²`.  The C loops run `x` from `x0 - radius`
while `x < x0 + radius` (and likewise `y`), i.e. `2·radius` iterations each
(none when the radius is nonpositive). -/
def fillCircleAt (t : Eng) (x0 y0 radius : ℤ) : Eng :=
  let pts := (List.range (2 * radius).toNat).flatMap fun i =>
    (List.range (2 * radius).toNat).filterMap fun j =>
      let x := x0 - radius + i
      let y := y0 - radius + j
      let dx := x - x0
      let dy := y - y0
      if dx * dx + dy * dy < radius * radius then some (x, y) else none
  fillPixels t pts

/-- `Turtle::fillCircle(int radius)`: centre at the current position, each
`double` coordinate implicitly converted to `int` (truncation toward zero). -/
def fillCircleHere (t : Eng) (radius : ℤ) : Eng :=
  fillCircleAt t (truncC t.mainTurtle.xpos) (truncC t.mainTurtle.ypos) radius

/-! ## Polygon scanline fill (`Turtle::endFill`) -/

/-- The crossing test of `Turtle::endFill`'s intercept-collection loop for
the edge from vertex `j` (the previous index, wrapping to `n-1` for `i = 0`)
to vertex `i`: one endpoint strictly below scanline `y`, the other at or
above it. -/
def edgeCross (pY : List ℚ) (n : ℕ) (y : ℤ) (i : ℕ) : Bool :=
  let j := if i = 0 then n - 1 else i - 1
  let yi := pY.getD i 0
  let yj := pY.getD j 0
  (yi < (y : ℚ) ∧ (y : ℚ) ≤ yj) ∨ (yj < (y : ℚ) ∧ (y : ℚ) ≤ yi)

/-- The interpolated x-intercept the crossing edge `(j, i)` contributes. -/
def edgeInterceptX (pX pY : List ℚ) (n : ℕ) (y : ℤ) (i : ℕ) : ℚ :=
  let j := if i = 0 then n - 1 else i - 1
  let yi := pY.getD i 0
  let yj := pY.getD j 0
  let xi := pX.getD i 0
  let xj := pX.getD j 0
  xi + ((y : ℚ) - yi) / (yj - yi) * (xj - xi)

/-- One iteration of the intercept-collection loop of `Turtle::endFill`:
if edge `(j, i)` crosses scanline `y`, the interpolated x-intercept is
appended.  After the possible append — every iteration, exactly as in the
source — the capacity check `nodes >= MAX_POLYGON_VERTICES` aborts the
process (modelled `none`). -/
def scanStep (pX pY : List ℚ) (n : ℕ) (y : ℤ) (acc : Option (List ℚ))
    (i : ℕ) : Option (List ℚ) :=
  match acc with
  | none => none
  | some nodes =>
    let nodes' :=
      if edgeCross pY n y i then nodes ++ [edgeInterceptX pX pY n y i]
      else nodes
    if nodes'.length ≥ 128 then none else some nodes'

/-- The intercept list collected for scanline `y`, or `none` if the
`exit(EXIT_FAILURE)` diagnostic path was taken. -/
def scanNodes (pX pY : List ℚ) (y : ℤ) : Option (List ℚ) :=
  (List.range pY.length).foldl (scanStep pX pY pY.length y) (some [])

/-- The number of polygon edges crossing scanline `y` — the total number of
intercepts the scanline produces (capacity aside). -/
def interceptCount (pY : List ℚ) (y : ℤ) : ℕ :=
  (List.range pY.length).countP (edgeCross pY pY.length y)

/-- Simple insertion sort on the intercepts (the source's in-place insertion
sort produces the ascending reordering of the collected values). -/
def ordInsert (x : ℚ) : List ℚ → List ℚ
  | [] => [x]
  | a :: l => if x < a then x :: a :: l else a :: ordInsert x l

/-- Ascending sort of the node list. -/
def sortNodes (l : List ℚ) : List ℚ := l.foldl (fun acc a => ordInsert a acc) []

/-- The pixels filled between consecutive intercept pairs on scanline `y`:
for each pair `(nodeX[2k], nodeX[2k+1])`, `x` runs from `floor(nodeX[2k]) + 1`
while `x < ceil(nodeX[2k+1])`.  (For a closed polygon the intercept count on
any scanline is even — the crossing predicate changes parity an even number
of times around the vertex cycle — so the odd trailing read the C code would
make on a malformed list never happens; the model defaults it to 0.) -/
def pairPixels (nodes : List ℚ) (y : ℤ) : List (ℤ × ℤ) :=
  (List.range ((nodes.length + 1) / 2)).flatMap fun k =>
    let a := ⌊nodes.getD (2 * k) 0⌋ + 1
    let b := ⌈nodes.getD (2 * k + 1) 0⌉
    (List.range (b - a).toNat).map fun m => (a + m, y)

/-- One scanline of `Turtle::endFill`: collect the intercepts (possibly
aborting), sort them, and fill between the pairs with `fillPixel`. -/
def fillRow (t : Eng) (y : ℤ) : Option Eng :=
  match scanNodes t.polyX t.polyY y with
  | none => none
  | some nodes =>
    some (fillPixels t (pairPixels (sortNodes nodes) y))

/-- The scanlines `Turtle::endFill` visits: `y` from `-(h/2)` while
`y < h/2` (with the signed-`int` field dimensions of the
`include/yatg` variants; in `turtle.hpp` the comparison `y < h/2` converts
the negative `y` to `unsigned`, so that variant's loop body never runs). -/
def rowsRange (h : ℕ) : List ℤ :=
  (List.range (2 * (h / 2))).map fun k => (k : ℤ) - ((h / 2 : ℕ) : ℤ)

/-- The final polygon-edge re-stroke of `Turtle::endFill`: each consecutive
vertex pair (wrapping) is redrawn with `drawLine` on rounded coordinates. -/
def redrawEdges (t : Eng) : Eng :=
  let n := t.polyY.length
  (List.range n).foldl (fun s i =>
    drawLine s (roundC (s.polyX.getD i 0)) (roundC (s.polyY.getD i 0))
      (roundC (s.polyX.getD ((i + 1) % n) 0))
      (roundC (s.polyY.getD ((i + 1) % n) 0))) t

/-- `Turtle::endFill()`: scanline fill over the field's rows (aborting the
process — `none` — if any scanline's intercepts reach the capacity), then
clear the fill flag, then re-stroke the polygon's edges. -/
def endFill (t : Eng) : Option Eng :=
  match (rowsRange t.fieldHeight).foldlM fillRow t with
  | none => none
  | some t1 =>
    some (redrawEdges
      { t1 with mainTurtle := { t1.mainTurtle with filled := false } })

/-! ## Composite turtle icon (`Turtle::drawTurtle`) -/

/-- One leg of the turtle icon: backup, move out (`forward(i*7)`,
`strafeLeft(j*7)`), stroke-coloured disc of radius 5, original-fill disc of
radius 3, restore. -/
def turtleLeg (cosD sinD : ℚ → ℚ) (origFill : Rgb) (i j : ℤ) (s : Eng) : Eng :=
  let s1 := backupOp s
  let s2 := strafeLeft cosD sinD (forward cosD sinD s1 (i * 7)) (j * 7)
  let s3 := setFillColor s2 s2.mainTurtle.strokeColor.red
    s2.mainTurtle.strokeColor.green s2.mainTurtle.strokeColor.blue
  let s4 := fillCircleHere s3 5
  let s5 := setFillColor s4 origFill.red origFill.green origFill.blue
  let s6 := fillCircleHere s5 3
  restoreOp s6

/-- One ring of the turtle icon's body: backup, stroke-coloured disc of
radius `i + 2`, original-fill disc of radius `i`, restore. -/
def turtleBody (origFill : Rgb) (i : ℤ) (s : Eng) : Eng :=
  let s1 := backupOp s
  let s2 := setFillColor s1 s1.mainTurtle.strokeColor.red
    s1.mainTurtle.strokeColor.green s1.mainTurtle.strokeColor.blue
  let s3 := fillCircleHere s2 (i + 2)
  let s4 := setFillColor s3 origFill.red origFill.green origFill.blue
  let s5 := fillCircleHere s4 i
  restoreOp s5

/-- `Turtle::drawTurtle()`: snapshot the state into a local
(`original_turtle`), lift the pen, draw four legs (`i, j ∈ {-1, 1}`), the
head (backup, `forward(10)`, two discs, restore), the body rings
(`i = 9, 5, 1`), and finally assign the snapshot back to `mainTurtle`. -/
def drawTurtle (cosD sinD : ℚ → ℚ) (t : Eng) : Eng :=
  let o := t.mainTurtle
  let t1 := penUp t
  let t2 := turtleLeg cosD sinD o.fillColor (-1) (-1) t1
  let t3 := turtleLeg cosD sinD o.fillColor (-1) 1 t2
  let t4 := turtleLeg cosD sinD o.fillColor 1 (-1) t3
  let t5 := turtleLeg cosD sinD o.fillColor 1 1 t4
  let h1 := backupOp t5
  let h2 := forward cosD sinD h1 10
  let h3 := setFillColor h2 h2.mainTurtle.strokeColor.red
    h2.mainTurtle.strokeColor.green h2.mainTurtle.strokeColor.blue
  let h4 := fillCircleHere h3 5
  let h5 := setFillColor h4 o.fillColor.red o.fillColor.green o.fillColor.blue
  let h6 := fillCircleHere h5 3
  let t6 := restoreOp h6
  let t7 := turtleBody o.fillColor 9 t6
  let t8 := turtleBody o.fillColor 5 t7
  let t9 := turtleBody o.fillColor 1 t8
  { t9 with mainTurtle := o }

/-! ## Digit drawing (`Turtle::drawInt`, `Turtle::countDigits`) -/

/-- The fixed 4×5 glyph table `TURTLE_DIGITS` (row-major, 20 cells per
digit, 1 = ink). -/
def TURTLE_DIGITS : List (List ℕ) :=
  [ [0,1,1,0, 1,0,0,1, 1,0,0,1, 1,0,0,1, 0,1,1,0],
    [0,1,1,0, 0,0,1,0, 0,0,1,0, 0,0,1,0, 0,1,1,1],
    [1,1,1,0, 0,0,0,1, 0,1,1,0, 1,0,0,0, 1,1,1,1],
    [1,1,1,0, 0,0,0,1, 0,1,1,0, 0,0,0,1, 1,1,1,0],
    [0,1,0,1, 0,1,0,1, 0,1,1,1, 0,0,0,1, 0,0,0,1],
    [1,1,1,1, 1,0,0,0, 1,1,1,0, 0,0,0,1, 1,1,1,0],
    [0,1,1,0, 1,0,0,0, 1,1,1,0, 1,0,0,1, 0,1,1,0],
    [1,1,1,1, 0,0,0,1, 0,0,1,0, 0,1,0,0, 0,1,0,0],
    [0,1,1,0, 1,0,0,1, 0,1,1,0, 1,0,0,1, 0,1,1,0],
    [0,1,1,0, 1,0,0,1, 0,1,1,1, 0,0,0,1, 0,1,1,0] ]

/-- `turtle.hpp`'s private `Turtle::countDigits(int number)`:
```
if (number > 9) {
    (int) (ceil(log10(number)));
} else {
    return 1;
}
```
For `number ≤ 9` it returns 1; for `number > 9` the computed expression is
discarded and control falls off the end of a non-void function — no value is
returned (undefined behaviour), modelled as `none`.  (The sibling variants
`yatg.cpp`/`yatg_all.hpp` assign `ndigits = (int)(ceil(log10(value)))`
inline instead.) -/
def countDigits (number : ℤ) : Option ℕ :=
  if number > 9 then none else some 1

/-- The intended digit count, as the sibling variants compute it and as the
specification describes it: `ceil(log10(value))` for values above 9, else 1.
`ceilLog10 n` is the least `k` with `n ≤ 10^k`, which equals
`⌈log10 n⌉` for every integer `n > 9` that is not itself rendered at a
power of ten boundary (for powers of ten the real-log ceiling is exact). -/
def ceilLog10 (n : ℕ) : ℕ := if n ≤ 1 then 0 else Nat.clog 10 n

/-- Digit count as computed by `yatg.cpp` / `yatg_all.hpp` `drawInt`. -/
def ndigitsOf (value : ℤ) : ℕ :=
  if value > 9 then ceilLog10 value.toNat else 1

/-- `Turtle::drawDigit(unsigned char digit, int digitIndex)`: plot the
glyph's inked cells; the `double` call arguments
`xpos + digitIndex*5 + x` and `ypos - y` are implicitly converted to the
`int` parameters of `drawPixel` (truncation toward zero). -/
def drawDigit (t : Eng) (digit : ℕ) (digitIndex : ℤ) : Eng :=
  let pts := (List.range 5).flatMap fun y =>
    (List.range 4).filterMap fun x =>
      if (TURTLE_DIGITS.getD digit []).getD (y * 4 + x) 0 = 1 then
        some (truncC (t.mainTurtle.xpos + digitIndex * 5 + x),
              truncC (t.mainTurtle.ypos - y))
      else none
  drawPixels t pts

/-- The digit loop of `Turtle::drawInt`: for `i` from `digitsCount - 1` down
to 0, draw `number % 10` at index `i` and divide `number` by 10
(C truncating `%` and `/`). -/
def drawIntLoop (t : Eng) (number : ℤ) : List ℤ → Eng
  | [] => t
  | i :: is => drawIntLoop (drawDigit t (toUChar (number.tmod 10)) i)
      (number.tdiv 10) is

/-- The descending index list `digitsCount - 1, …, 0`. -/
def descIndices (digitsCount : ℕ) : List ℤ :=
  (List.range digitsCount).reverse.map (fun i => (i : ℤ))

/-- `turtle.hpp`'s `Turtle::drawInt(int number)`:
`digitsCount = countDigits(number)` — undefined (`none`) for any
`number > 9` — then the digit loop. -/
def drawInt (t : Eng) (number : ℤ) : Option Eng :=
  (countDigits number).map fun digitsCount =>
    drawIntLoop t number (descIndices digitsCount)

/-! ## Bitmap encoder (`Turtle::saveBMP`) -/

/-- `bytesPerLine = (3 * (width + 1) / 4) * 4`: each pixel row of the file is
padded to a multiple of 4 bytes. -/
def bytesPerLine (w : ℕ) : ℕ := 3 * (w + 1) / 4 * 4

/-- The BMP header exactly as `Turtle::saveBMP` fills it in. -/
structure BMPHeaderV where
  bfOffBits : ℤ
  bfSize : ℤ
  bfReserved : ℤ
  biSize : ℤ
  biWidth : ℤ
  biHeight : ℤ
  biPlanes : ℤ
  biBitCount : ℤ
  biCompression : ℤ
  biSizeImage : ℤ
  biXPelsPerMeter : ℤ
  biYPelsPerMeter : ℤ
  biClrUsed : ℤ
  biClrImportant : ℤ
deriving DecidableEq, Repr

/-- The header field assignments of `Turtle::saveBMP`. -/
def mkHeader (w h : ℕ) : BMPHeaderV :=
  { bfOffBits := 54
    bfSize := 54 + (bytesPerLine w * h : ℕ)
    bfReserved := 0
    biSize := 40
    biWidth := w
    biHeight := h
    biPlanes := 1
    biBitCount := 24
    biCompression := 0
    biSizeImage := (bytesPerLine w * h : ℕ)
    biXPelsPerMeter := 0
    biYPelsPerMeter := 0
    biClrUsed := 0
    biClrImportant := 0 }

/-- The pixel bytes of one row: for each pixel `j` the bytes
`line[3j] = blue`, `line[3j+1] = green`, `line[3j+2] = red` (the engine
stores `red, green, blue` at byte offsets `ipos, ipos+1, ipos+2`; the file
reverses to blue, green, red). -/
def encodePixels : List Rgb → List ℕ
  | [] => []
  | p :: ps => p.blue :: p.green :: p.red :: encodePixels ps

/-- One padded row of the file: the pixel bytes followed by the padding
zeroes up to `bytesPerLine` (the scratch row is `memset` to 0 once and the
padding bytes are never overwritten). -/
def encodeLine (w : ℕ) (row : List Rgb) : List ℕ :=
  encodePixels row ++ List.replicate (bytesPerLine w - 3 * w) 0

/-- The full pixel-data block: rows `i = 0 … h-1` in buffer order, row `i`
being pixels `w*i … w*i + w - 1` of the flat buffer (modelled by peeling `w`
pixels per row off the front of the flat list). -/
def encodeRows (w : ℕ) : ℕ → List Rgb → List ℕ
  | 0, _ => []
  | h + 1, img => encodeLine w (img.take w) ++ encodeRows w h (img.drop w)

/-- Parsing one row's pixels back: `w` blue-green-red triples. -/
def decodePixels : ℕ → List ℕ → List Rgb
  | 0, _ => []
  | w + 1, b :: g :: r :: rest => ⟨r, g, b⟩ :: decodePixels w rest
  | _ + 1, _ => []

/-- Parsing the pixel-data block back into the flat buffer, respecting the
row padding: read `w` pixels, skip to the next `bytesPerLine` boundary,
repeat for each of the `h` rows. -/
def decodeRows (w : ℕ) : ℕ → List ℕ → List Rgb
  | 0, _ => []
  | h + 1, bytes =>
    decodePixels w bytes ++ decodeRows w h (bytes.drop (bytesPerLine w))

/-! ## Sequences of state-mutating operations -/

/-- The state-mutating public operations of the engine: moves, turns, pen
and colour changes, fill toggles (the operations a caller can interleave
between `backup()` and `restore()`). -/
inductive TOp where
  | forward (pixels : ℤ)
  | backward (pixels : ℤ)
  | strafeLeft (pixels : ℤ)
  | strafeRight (pixels : ℤ)
  | turnLeft (angle : ℚ)
  | turnRight (angle : ℚ)
  | penUp
  | penDown
  | setPenColor (r g b : ℤ)
  | setFillColor (r g b : ℤ)
  | setHeading (angle : ℚ)
  | goToI (x y : ℤ)
  | goToD (x y : ℚ)
  | beginFill
  | endFill

/-- Apply one operation (`endFill` can abort the process, hence `Option`). -/
def applyOp (cosD sinD : ℚ → ℚ) (t : Eng) : TOp → Option Eng
  | .forward p => some (forward cosD sinD t p)
  | .backward p => some (backward cosD sinD t p)
  | .strafeLeft p => some (strafeLeft cosD sinD t p)
  | .strafeRight p => some (strafeRight cosD sinD t p)
  | .turnLeft a => some (turnLeft t a)
  | .turnRight a => some (turnRight t a)
  | .penUp => some (penUp t)
  | .penDown => some (penDown t)
  | .setPenColor r g b => some (setPenColor t r g b)
  | .setFillColor r g b => some (setFillColor t r g b)
  | .setHeading a => some (setHeading t a)
  | .goToI x y => some (goToI t x y)
  | .goToD x y => some (goToD t x y)
  | .beginFill => some (beginFill t)
  | .endFill => endFill t

/-- Run a sequence of operations left to right. -/
def runOps (cosD sinD : ℚ → ℚ) : Eng → List TOp → Option Eng
  | t, [] => some t
  | t, op :: ops => (applyOp cosD sinD t op).bind fun t' => runOps cosD sinD t' ops

/-! ## Concrete scenarios used by the claim theorems -/

/-- `n` successive `drawPixel(1000, 1000)` calls on a fresh 16×16 engine —
every one far outside the valid centred range `x, y ∈ [-8, 8]`. -/
def oobCalls : ℕ → Eng
  | 0 => mkEng 16 16
  | n + 1 => drawPixel (oobCalls n) 1000 1000

/-- A 2×2 engine holding a 128-vertex zigzag polygon: vertex `i` at
`(i, -1)` for even `i` and `(i, 1)` for odd `i`.  All 128 edges (including
the closing edge) cross scanline `y = 0`, so that scanline collects exactly
128 intercepts — the capacity, not more. -/
def zigzagEng : Eng :=
  { mkEng 2 2 with
    polyX := (List.range 128).map fun i => (i : ℚ)
    polyY := (List.range 128).map fun i => if i % 2 = 0 then (-1 : ℚ) else 1 }

/-- A 2×2 engine holding a small square polygon (4 vertices): every scanline
collects at most 2 intercepts. -/
def squareEng : Eng :=
  { mkEng 2 2 with
    polyX := [-1, 1, 1, -1]
    polyY := [-1, -1, 1, 1] }

/-! ## Frame lemmas: which fields each operation can touch -/

/-- `fillPixel` only rewrites the image. -/
theorem fillPixel_eq_image (t : Eng) (x y : ℤ) :
    fillPixel t x y = { t with image := (fillPixel t x y).image } := by
  unfold fillPixel
  dsimp only
  split <;> rfl

/-- `drawPixel` never touches the turtle states, the field dimensions, the
video flag/interval or the polygon vertex list. -/
theorem drawPixel_frame (t : Eng) (x y : ℤ) :
    drawPixel t x y = { t with
      image := (drawPixel t x y).image
      numPixelsOutOfBounds := (drawPixel t x y).numPixelsOutOfBounds
      diagnostics := (drawPixel t x y).diagnostics
      pixelCount := (drawPixel t x y).pixelCount
      frameCount := (drawPixel t x y).frameCount } := by
  unfold drawPixel oobBranch frameStep
  dsimp only
  repeat' split
  all_goals rfl

/-- Single-step projections: the fields `drawPixel` leaves untouched. -/
@[simp] theorem drawPixel_mainTurtle (t : Eng) (x y : ℤ) :
    (drawPixel t x y).mainTurtle = t.mainTurtle := by rw [drawPixel_frame]

@[simp] theorem drawPixel_backupTurtle (t : Eng) (x y : ℤ) :
    (drawPixel t x y).backupTurtle = t.backupTurtle := by rw [drawPixel_frame]

@[simp] theorem drawPixel_polyX (t : Eng) (x y : ℤ) :
    (drawPixel t x y).polyX = t.polyX := by rw [drawPixel_frame]

@[simp] theorem drawPixel_polyY (t : Eng) (x y : ℤ) :
    (drawPixel t x y).polyY = t.polyY := by rw [drawPixel_frame]

@[simp] theorem drawPixel_fieldWidth (t : Eng) (x y : ℤ) :
    (drawPixel t x y).fieldWidth = t.fieldWidth := by rw [drawPixel_frame]

@[simp] theorem drawPixel_fieldHeight (t : Eng) (x y : ℤ) :
    (drawPixel t x y).fieldHeight = t.fieldHeight := by rw [drawPixel_frame]

@[simp] theorem fillPixel_mainTurtle (t : Eng) (x y : ℤ) :
    (fillPixel t x y).mainTurtle = t.mainTurtle := by rw [fillPixel_eq_image]

@[simp] theorem fillPixel_backupTurtle (t : Eng) (x y : ℤ) :
    (fillPixel t x y).backupTurtle = t.backupTurtle := by rw [fillPixel_eq_image]

@[simp] theorem fillPixel_polyX (t : Eng) (x y : ℤ) :
    (fillPixel t x y).polyX = t.polyX := by rw [fillPixel_eq_image]

@[simp] theorem fillPixel_polyY (t : Eng) (x y : ℤ) :
    (fillPixel t x y).polyY = t.polyY := by rw [fillPixel_eq_image]

@[simp] theorem fillPixel_fieldWidth (t : Eng) (x y : ℤ) :
    (fillPixel t x y).fieldWidth = t.fieldWidth := by rw [fillPixel_eq_image]

@[simp] theorem fillPixel_fieldHeight (t : Eng) (x y : ℤ) :
    (fillPixel t x y).fieldHeight = t.fieldHeight := by rw [fillPixel_eq_image]

@[simp] theorem drawPixels_mainTurtle (ps : List (ℤ × ℤ)) (t : Eng) :
    (drawPixels t ps).mainTurtle = t.mainTurtle := by
  induction ps generalizing t with
  | nil => rfl
  | cons p ps ih =>
    show (drawPixels (drawPixel t p.1 p.2) ps).mainTurtle = _
    rw [ih, drawPixel_mainTurtle]

@[simp] theorem drawPixels_backupTurtle (ps : List (ℤ × ℤ)) (t : Eng) :
    (drawPixels t ps).backupTurtle = t.backupTurtle := by
  induction ps generalizing t with
  | nil => rfl
  | cons p ps ih =>
    show (drawPixels (drawPixel t p.1 p.2) ps).backupTurtle = _
    rw [ih, drawPixel_backupTurtle]

@[simp] theorem drawPixels_polyX (ps : List (ℤ × ℤ)) (t : Eng) :
    (drawPixels t ps).polyX = t.polyX := by
  induction ps generalizing t with
  | nil => rfl
  | cons p ps ih =>
    show (drawPixels (drawPixel t p.1 p.2) ps).polyX = _
    rw [ih, drawPixel_polyX]

@[simp] theorem drawPixels_polyY (ps : List (ℤ × ℤ)) (t : Eng) :
    (drawPixels t ps).polyY = t.polyY := by
  induction ps generalizing t with
  | nil => rfl
  | cons p ps ih =>
    show (drawPixels (drawPixel t p.1 p.2) ps).polyY = _
    rw [ih, drawPixel_polyY]

@[simp] theorem drawPixels_fieldWidth (ps : List (ℤ × ℤ)) (t : Eng) :
    (drawPixels t ps).fieldWidth = t.fieldWidth := by
  induction ps generalizing t with
  | nil => rfl
  | cons p ps ih =>
    show (drawPixels (drawPixel t p.1 p.2) ps).fieldWidth = _
    rw [ih, drawPixel_fieldWidth]

@[simp] theorem drawPixels_fieldHeight (ps : List (ℤ × ℤ)) (t : Eng) :
    (drawPixels t ps).fieldHeight = t.fieldHeight := by
  induction ps generalizing t with
  | nil => rfl
  | cons p ps ih =>
    show (drawPixels (drawPixel t p.1 p.2) ps).fieldHeight = _
    rw [ih, drawPixel_fieldHeight]

@[simp] theorem fillPixels_mainTurtle (ps : List (ℤ × ℤ)) (t : Eng) :
    (fillPixels t ps).mainTurtle = t.mainTurtle := by
  induction ps generalizing t with
  | nil => rfl
  | cons p ps ih =>
    show (fillPixels (fillPixel t p.1 p.2) ps).mainTurtle = _
    rw [ih, fillPixel_mainTurtle]

@[simp] theorem fillPixels_backupTurtle (ps : List (ℤ × ℤ)) (t : Eng) :
    (fillPixels t ps).backupTurtle = t.backupTurtle := by
  induction ps generalizing t with
  | nil => rfl
  | cons p ps ih =>
    show (fillPixels (fillPixel t p.1 p.2) ps).backupTurtle = _
    rw [ih, fillPixel_backupTurtle]

@[simp] theorem fillPixels_polyX (ps : List (ℤ × ℤ)) (t : Eng) :
    (fillPixels t ps).polyX = t.polyX := by
  induction ps generalizing t with
  | nil => rfl
  | cons p ps ih =>
    show (fillPixels (fillPixel t p.1 p.2) ps).polyX = _
    rw [ih, fillPixel_polyX]

@[simp] theorem fillPixels_polyY (ps : List (ℤ × ℤ)) (t : Eng) :
    (fillPixels t ps).polyY = t.polyY := by
  induction ps generalizing t with
  | nil => rfl
  | cons p ps ih =>
    show (fillPixels (fillPixel t p.1 p.2) ps).polyY = _
    rw [ih, fillPixel_polyY]

@[simp] theorem fillPixels_fieldWidth (ps : List (ℤ × ℤ)) (t : Eng) :
    (fillPixels t ps).fieldWidth = t.fieldWidth := by
  induction ps generalizing t with
  | nil => rfl
  | cons p ps ih =>
    show (fillPixels (fillPixel t p.1 p.2) ps).fieldWidth = _
    rw [ih, fillPixel_fieldWidth]

@[simp] theorem fillPixels_fieldHeight (ps : List (ℤ × ℤ)) (t : Eng) :
    (fillPixels t ps).fieldHeight = t.fieldHeight := by
  induction ps generalizing t with
  | nil => rfl
  | cons p ps ih =>
    show (fillPixels (fillPixel t p.1 p.2) ps).fieldHeight = _
    rw [ih, fillPixel_fieldHeight]

@[simp] theorem drawLine_mainTurtle (t : Eng) (x0 y0 x1 y1 : ℤ) :
    (drawLine t x0 y0 x1 y1).mainTurtle = t.mainTurtle := drawPixels_mainTurtle _ _

@[simp] theorem drawLine_backupTurtle (t : Eng) (x0 y0 x1 y1 : ℤ) :
    (drawLine t x0 y0 x1 y1).backupTurtle = t.backupTurtle := drawPixels_backupTurtle _ _

@[simp] theorem drawLine_polyX (t : Eng) (x0 y0 x1 y1 : ℤ) :
    (drawLine t x0 y0 x1 y1).polyX = t.polyX := drawPixels_polyX _ _

@[simp] theorem drawLine_polyY (t : Eng) (x0 y0 x1 y1 : ℤ) :
    (drawLine t x0 y0 x1 y1).polyY = t.polyY := drawPixels_polyY _ _

@[simp] theorem drawLine_fieldWidth (t : Eng) (x0 y0 x1 y1 : ℤ) :
    (drawLine t x0 y0 x1 y1).fieldWidth = t.fieldWidth := drawPixels_fieldWidth _ _

@[simp] theorem drawLine_fieldHeight (t : Eng) (x0 y0 x1 y1 : ℤ) :
    (drawLine t x0 y0 x1 y1).fieldHeight = t.fieldHeight := drawPixels_fieldHeight _ _

/-- `goTo` leaves the backup slot alone. -/
@[simp] theorem goToD_backupTurtle (t : Eng) (x y : ℚ) :
    (goToD t x y).backupTurtle = t.backupTurtle := by
  unfold goToD
  dsimp only
  repeat' split
  all_goals simp

/-- `forward` leaves the backup slot alone. -/
@[simp] theorem forward_backupTurtle (cosD sinD : ℚ → ℚ) (t : Eng) (p : ℤ) :
    (forward cosD sinD t p).backupTurtle = t.backupTurtle := by
  unfold forward
  simp

@[simp] theorem backward_backupTurtle (cosD sinD : ℚ → ℚ) (t : Eng) (p : ℤ) :
    (backward cosD sinD t p).backupTurtle = t.backupTurtle := by
  unfold backward
  simp

@[simp] theorem goToI_backupTurtle (t : Eng) (x y : ℤ) :
    (goToI t x y).backupTurtle = t.backupTurtle := by
  unfold goToI
  simp

@[simp] theorem turnLeft_backupTurtle (t : Eng) (a : ℚ) :
    (turnLeft t a).backupTurtle = t.backupTurtle := rfl

@[simp] theorem turnRight_backupTurtle (t : Eng) (a : ℚ) :
    (turnRight t a).backupTurtle = t.backupTurtle := rfl

@[simp] theorem strafeLeft_backupTurtle (cosD sinD : ℚ → ℚ) (t : Eng) (p : ℤ) :
    (strafeLeft cosD sinD t p).backupTurtle = t.backupTurtle := by
  unfold strafeLeft
  simp

@[simp] theorem strafeRight_backupTurtle (cosD sinD : ℚ → ℚ) (t : Eng) (p : ℤ) :
    (strafeRight cosD sinD t p).backupTurtle = t.backupTurtle := by
  unfold strafeRight
  simp

@[simp] theorem setFillColor_backupTurtle (t : Eng) (r g b : ℤ) :
    (setFillColor t r g b).backupTurtle = t.backupTurtle := rfl

@[simp] theorem setPenColor_backupTurtle (t : Eng) (r g b : ℤ) :
    (setPenColor t r g b).backupTurtle = t.backupTurtle := rfl

@[simp] theorem penUp_backupTurtle (t : Eng) :
    (penUp t).backupTurtle = t.backupTurtle := rfl

@[simp] theorem penDown_backupTurtle (t : Eng) :
    (penDown t).backupTurtle = t.backupTurtle := rfl

@[simp] theorem setHeading_backupTurtle (t : Eng) (a : ℚ) :
    (setHeading t a).backupTurtle = t.backupTurtle := rfl

@[simp] theorem beginFill_backupTurtle (t : Eng) :
    (beginFill t).backupTurtle = t.backupTurtle := rfl

@[simp] theorem fillCircleAt_backupTurtle (t : Eng) (x0 y0 r : ℤ) :
    (fillCircleAt t x0 y0 r).backupTurtle = t.backupTurtle :=
  fillPixels_backupTurtle _ _

@[simp] theorem fillCircleAt_mainTurtle (t : Eng) (x0 y0 r : ℤ) :
    (fillCircleAt t x0 y0 r).mainTurtle = t.mainTurtle :=
  fillPixels_mainTurtle _ _

@[simp] theorem fillCircleHere_backupTurtle (t : Eng) (r : ℤ) :
    (fillCircleHere t r).backupTurtle = t.backupTurtle :=
  fillCircleAt_backupTurtle _ _ _ _

@[simp] theorem fillCircleHere_mainTurtle (t : Eng) (r : ℤ) :
    (fillCircleHere t r).mainTurtle = t.mainTurtle :=
  fillCircleAt_mainTurtle _ _ _ _

@[simp] theorem backupOp_backupTurtle (t : Eng) :
    (backupOp t).backupTurtle = t.mainTurtle := rfl

@[simp] theorem restoreOp_mainTurtle (t : Eng) :
    (restoreOp t).mainTurtle = t.backupTurtle := rfl

@[simp] theorem restoreOp_backupTurtle (t : Eng) :
    (restoreOp t).backupTurtle = t.backupTurtle := rfl

/-! ## `endFill` and operation sequences leave the backup slot alone -/

@[simp] theorem fillRow_backupTurtle (t t' : Eng) (y : ℤ)
    (h : fillRow t y = some t') : t'.backupTurtle = t.backupTurtle := by
  unfold fillRow at h
  rcases hs : scanNodes t.polyX t.polyY y with _ | nodes <;> rw [hs] at h
  · exact absurd h (by simp)
  · simp only [Option.some_inj] at h
    subst h
    simp

theorem fillRow_frame (t t' : Eng) (y : ℤ) (h : fillRow t y = some t') :
    t'.backupTurtle = t.backupTurtle ∧ t'.mainTurtle = t.mainTurtle ∧
    t'.polyX = t.polyX ∧ t'.polyY = t.polyY ∧
    t'.fieldWidth = t.fieldWidth ∧ t'.fieldHeight = t.fieldHeight := by
  unfold fillRow at h
  rcases hs : scanNodes t.polyX t.polyY y with _ | nodes <;> rw [hs] at h
  · exact absurd h (by simp)
  · simp only [Option.some_inj] at h
    subst h
    simp

theorem foldlM_fillRow_frame (rows : List ℤ) (t t' : Eng)
    (h : List.foldlM fillRow t rows = some t') :
    t'.backupTurtle = t.backupTurtle ∧ t'.mainTurtle = t.mainTurtle ∧
    t'.polyX = t.polyX ∧ t'.polyY = t.polyY ∧
    t'.fieldWidth = t.fieldWidth ∧ t'.fieldHeight = t.fieldHeight := by
  induction rows generalizing t with
  | nil =>
    simp only [List.foldlM, pure, Option.some_inj] at h
    subst h
    exact ⟨rfl, rfl, rfl, rfl, rfl, rfl⟩
  | cons y rows ih =>
    rw [List.foldlM_cons] at h
    rcases h1 : fillRow t y with _ | t1 <;> rw [h1] at h
    · exact absurd h (by simp)
    · obtain ⟨a, b, c, d, e, f⟩ := ih t1 (by simpa using h)
      obtain ⟨a', b', c', d', e', f'⟩ := fillRow_frame t t1 y h1
      exact ⟨a.trans a', b.trans b', c.trans c', d.trans d', e.trans e', f.trans f'⟩

@[simp] theorem redrawEdges_backupTurtle (t : Eng) :
    (redrawEdges t).backupTurtle = t.backupTurtle := by
  unfold redrawEdges
  dsimp only
  generalize t.polyY.length = n
  generalize List.range n = l
  induction l generalizing t with
  | nil => rfl
  | cons i l ih =>
    rw [List.foldl_cons, ih]
    simp

theorem endFill_backupTurtle (t t' : Eng) (h : endFill t = some t') :
    t'.backupTurtle = t.backupTurtle := by
  unfold endFill at h
  rcases hs : List.foldlM fillRow t (rowsRange t.fieldHeight) with _ | t1 <;>
    rw [hs] at h
  · exact absurd h (by simp)
  · simp only [Option.some_inj] at h
    subst h
    simpa using (foldlM_fillRow_frame _ t t1 hs).1

theorem applyOp_backupTurtle (cosD sinD : ℚ → ℚ) (op : TOp) (t t' : Eng)
    (h : applyOp cosD sinD t op = some t') : t'.backupTurtle = t.backupTurtle := by
  cases op <;> simp only [applyOp, Option.some_inj] at h
  case endFill => exact endFill_backupTurtle t t' h
  all_goals subst h
  all_goals simp

theorem runOps_backupTurtle (cosD sinD : ℚ → ℚ) (ops : List TOp) (t t' : Eng)
    (h : runOps cosD sinD t ops = some t') : t'.backupTurtle = t.backupTurtle := by
  induction ops generalizing t with
  | nil =>
    simp only [runOps, Option.some_inj] at h
    subst h
    rfl
  | cons op ops ih =>
    simp only [runOps] at h
    rcases h1 : applyOp cosD sinD t op with _ | t1 <;> rw [h1] at h
    · exact absurd h (by simp)
    · exact (ih t1 (by simpa using h)).trans (applyOp_backupTurtle cosD sinD op t t1 h1)

@[simp] theorem penUp_mainTurtle (t : Eng) :
    (penUp t).mainTurtle = { t.mainTurtle with pendown := false } := rfl

/-- Each leg of the icon ends in `restore()`, so it leaves `mainTurtle` as it
found it — and leaves the backup slot holding that same state. -/
theorem turtleLeg_frame (cosD sinD : ℚ → ℚ) (o : Rgb) (i j : ℤ) (s : Eng) :
    (turtleLeg cosD sinD o i j s).mainTurtle = s.mainTurtle ∧
    (turtleLeg cosD sinD o i j s).backupTurtle = s.mainTurtle := by
  unfold turtleLeg
  dsimp only
  constructor <;> simp

/-- Each body ring of the icon likewise restores `mainTurtle` and leaves the
backup slot holding it. -/
theorem turtleBody_frame (o : Rgb) (i : ℤ) (s : Eng) :
    (turtleBody o i s).mainTurtle = s.mainTurtle ∧
    (turtleBody o i s).backupTurtle = s.mainTurtle := by
  unfold turtleBody
  dsimp only
  constructor <;> simp

/-- C8 — For every turtle state, calling `backup()`, then performing any
sequence of state-mutating operations (moves, turns, pen and colour changes,
fill toggles), then calling `restore()`, returns the turtle's position,
heading, stroke and fill colours, pen-down flag and fill-active flag
(`mainTurtle` in full) to the exact values they had at backup time — for any
interpretation of the trigonometric functions and provided the sequence runs
to completion (an aborting `endFill` terminates the process instead). -/
theorem C8_backup_mutate_restore (cosD sinD : ℚ → ℚ) (ops : List TOp)
    (s t' : Eng) (h : runOps cosD sinD (backupOp s) ops = some t') :
    (restoreOp t').mainTurtle = s.mainTurtle := by
  have hb := runOps_backupTurtle cosD sinD ops (backupOp s) t' h
  rw [restoreOp_mainTurtle, hb, backupOp_backupTurtle]

/-- Witness for C8: a concrete mutation sequence on a fresh 2×2 engine. -/
theorem C8_backup_mutate_restore_witness :
    (restoreOp ((runOps (fun _ => 0) (fun _ => 0) (backupOp (mkEng 2 2))
        [TOp.penUp, TOp.turnLeft 90, TOp.setPenColor 10 20 30,
         TOp.goToD 3 4, TOp.setFillColor 1 2 3, TOp.beginFill,
         TOp.endFill]).getD (mkEng 2 2))).mainTurtle
      = (mkEng 2 2).mainTurtle :=
  C8_backup_mutate_restore (fun _ => 0) (fun _ => 0)
    [TOp.penUp, TOp.turnLeft 90, TOp.setPenColor 10 20 30,
     TOp.goToD 3 4, TOp.setFillColor 1 2 3, TOp.beginFill, TOp.endFill]
    (mkEng 2 2) _ (by rfl)

/-- C10 — After `drawTurtle()` returns, the turtle's current state equals the
starting state exactly; but `drawTurtle` overwrites the single backup slot,
so a `restore()` after `drawTurtle` yields the starting state with the pen
up, not any backup the caller made before `drawTurtle`. -/
theorem C10_drawTurtle_restores_pose (cosD sinD : ℚ → ℚ) (t : Eng) :
    (drawTurtle cosD sinD t).mainTurtle = t.mainTurtle ∧
    (drawTurtle cosD sinD t).backupTurtle = { t.mainTurtle with pendown := false } ∧
    (restoreOp (drawTurtle cosD sinD t)).mainTurtle
      = { t.mainTurtle with pendown := false } := by
  unfold drawTurtle
  dsimp only
  refine ⟨rfl, ?_, ?_⟩ <;>
    simp [turtleLeg_frame, (turtleLeg_frame _ _ _ _ _ _).1,
      (turtleLeg_frame _ _ _ _ _ _).2, (turtleBody_frame _ _ _).1,
      (turtleBody_frame _ _ _).2]

/-! ## Heading normalization -/

/-- One turn keeps the heading in `[0, 360)` provided the angle's magnitude
is at most 360 (the source adds/subtracts 360 at most once). -/
theorem turnLeft_heading_bounds (t : Eng) (a : ℚ)
    (h0 : 0 ≤ t.mainTurtle.heading) (h1 : t.mainTurtle.heading < 360)
    (ha : -360 ≤ a) (hb : a ≤ 360) :
    0 ≤ (turnLeft t a).mainTurtle.heading ∧
      (turnLeft t a).mainTurtle.heading < 360 := by
  unfold turnLeft
  dsimp only
  split_ifs with hc hd <;> constructor <;> linarith

/-- C2 (corrected) — `turnRight` is `turnLeft` of the negated angle; after
any sequence of turns whose angles each lie in `[-360, 360]`, a heading that
starts in `[0, 360)` stays in `[0, 360)`; and the spec's example still holds:
`turnLeft(370)` from heading 0 yields heading 10 (the sum 370 lies below 720,
so the single subtraction of 360 suffices).  Without the per-angle bound the
invariant fails: see the counterexample. -/
theorem C2_heading_invariant_amended :
    (∀ (t : Eng) (a : ℚ), turnRight t a = turnLeft t (-a)) ∧
    (∀ (angles : List ℚ) (t : Eng), (∀ a ∈ angles, |a| ≤ 360) →
      0 ≤ t.mainTurtle.heading → t.mainTurtle.heading < 360 →
      0 ≤ (angles.foldl turnLeft t).mainTurtle.heading ∧
        (angles.foldl turnLeft t).mainTurtle.heading < 360) ∧
    (turnLeft (mkEng 16 16) 370).mainTurtle.heading = 10 := by
  refine ⟨fun t a => rfl, ?_, by norm_num [turnLeft, mkEng, resetState]⟩
  intro angles
  induction angles with
  | nil => exact fun t _ h0 h1 => ⟨h0, h1⟩
  | cons a l ih =>
    intro t hmem h0 h1
    rw [List.foldl_cons]
    have ha := hmem a (List.mem_cons_self a l)
    obtain ⟨g0, g1⟩ := turnLeft_heading_bounds t a h0 h1
      (neg_le_of_abs_le ha) (le_of_abs_le ha)
    exact ih (turnLeft t a) (fun b hb => hmem b (List.mem_cons_of_mem a hb)) g0 g1

/-- Witness for C2 (amended): the sequence `turnLeft 360; turnLeft (-360)`
from the fresh heading 0. -/
theorem C2_heading_invariant_witness :
    0 ≤ (([360, -360] : List ℚ).foldl turnLeft (mkEng 16 16)).mainTurtle.heading ∧
      (([360, -360] : List ℚ).foldl turnLeft (mkEng 16 16)).mainTurtle.heading < 360 :=
  C2_heading_invariant_amended.2.1 [360, -360] (mkEng 16 16)
    (by decide) (by decide) (by decide)

/-- C2 counterexample — the claim as stated (arbitrary double angles) is
false: a single `turnLeft(730)` from heading 0 leaves the heading at 370,
outside `[0, 360)`, because the normalization subtracts 360 only once. -/
theorem C2_heading_counterexample :
    (turnLeft (mkEng 16 16) 730).mainTurtle.heading = 370 ∧
      ¬ (turnLeft (mkEng 16 16) 730).mainTurtle.heading < 360 := by
  norm_num [turnLeft, mkEng, resetState]

/-! ## Out-of-range pixel writes: dropped, rate-limited diagnostics -/

/-- Counter/diagnostic invariant of repeated out-of-range `drawPixel` calls:
after `n` calls the 64-bit counter holds `n` and exactly `min n 99`
diagnostics have been printed — the pre-increment check `++count < 100`
admits counter values 1 … 99 only. -/
theorem oobCalls_invariant (n : ℕ) (h : n < 2 ^ 64) :
    (oobCalls n).fieldWidth = 16 ∧ (oobCalls n).fieldHeight = 16 ∧
    (oobCalls n).numPixelsOutOfBounds = n ∧
    (oobCalls n).diagnostics = min n 99 := by
  induction n with
  | zero => exact ⟨rfl, rfl, rfl, rfl⟩
  | succ n ih =>
    obtain ⟨hw, hh, hc, hd⟩ := ih (by omega)
    have hstep : oobCalls (n + 1) = drawPixel (oobCalls n) 1000 1000 := rfl
    rw [hstep]
    refine ⟨by simp [hw], by simp [hh], ?_, ?_⟩
    · unfold drawPixel
      rw [if_pos (by rw [hw, hh]; decide)]
      unfold oobBranch
      dsimp only
      rw [hc]
      exact Nat.mod_eq_of_lt h
    · unfold drawPixel
      rw [if_pos (by rw [hw, hh]; decide)]
      unfold oobBranch
      dsimp only
      rw [hc, hd, Nat.mod_eq_of_lt h]
      split <;> omega

/-- C3 (corrected) — every out-of-range `drawPixel` call leaves the whole
buffer unchanged (dropped, not clamped), and over the engine lifetime
exactly the first **99** (not 100) out-of-range calls print a diagnostic:
the source pre-increments (`++numPixelsOutOfBounds < 100`), so the 100th
call already fails the check. -/
theorem C3_oob_drop_rate_limit_amended :
    (∀ (t : Eng) (x y : ℤ), pixelOOB t.fieldWidth t.fieldHeight x y = true →
      (drawPixel t x y).image = t.image) ∧
    (∀ n : ℕ, n < 2 ^ 64 → (oobCalls n).diagnostics = min n 99) := by
  constructor
  · intro t x y h
    unfold drawPixel
    rw [if_pos h]
    rfl
  · exact fun n h => (oobCalls_invariant n h).2.2.2

/-- Witness for C3 (amended): a far out-of-range call on a fresh 16×16
engine, and the diagnostic count after 100 such calls. -/
theorem C3_oob_drop_rate_limit_witness :
    (drawPixel (mkEng 16 16) 1000 1000).image = (mkEng 16 16).image ∧
      (oobCalls 100).diagnostics = min 100 99 :=
  ⟨C3_oob_drop_rate_limit_amended.1 (mkEng 16 16) 1000 1000 (by decide),
   C3_oob_drop_rate_limit_amended.2 100 (by norm_num)⟩

/-- C3 counterexample — the claim as stated says the first 100 out-of-range
calls produce a diagnostic; after 100 such calls only 99 diagnostics have
been printed. -/
theorem C3_oob_rate_limit_counterexample :
    (oobCalls 100).diagnostics = 99 ∧ (oobCalls 100).diagnostics ≠ 100 := by
  have h := (oobCalls_invariant 100 (by norm_num)).2.2.2
  omega


/-! ## The `turtle.hpp` unsigned bounds check -/

set_option maxRecDepth 100000 in
/-- C1 — In `turtle.hpp` (the cited `drawPixel`), the claim fails at every
coordinate: because the field dimensions are `unsigned int`, the check
`x < (-mainFieldWidth / 2)` compares `x` (converted to unsigned) against
`(2^32 - w) / 2 ≈ 2^31`, so **every** coordinate of a 16×16 field is flagged
out of bounds; `drawPixel(0, 0)` — squarely inside the claimed valid range —
changes no pixel, and reading `(0, 0)` back yields white, not the black
stroke colour. -/
theorem C1_drawPixel_unsigned_check_rejects_all :
    (∀ x y : ℤ, pixelOOBU 16 16 x y = true) ∧
    (drawPixelU (mkEng 16 16) 0 0).image = (mkEng 16 16).image ∧
    readPixel (drawPixelU (mkEng 16 16) 0 0) 0 0 = whiteRgb ∧
    (mkEng 16 16).mainTurtle.strokeColor ≠ whiteRgb := by
  refine ⟨?_, by decide, by decide, by decide⟩
  intro x y
  simp only [pixelOOBU, toU32, Bool.or_eq_true, decide_eq_true_eq]
  omega

/-! ## `fillPixel`: guard on the flat index only -/

set_option maxRecDepth 100000 in
/-- C4 counterexample — `(3, 0)` is outside the valid centred range of a 4×4
field (`x ∈ [-2, 2]`), yet `fillPixel(3, 0)` changes the buffer: its flat
index `4*(0+2) + (3+2) = 13` lies inside `[0, 16)`, so the write lands on
the buffer cell that centred coordinate `(-1, 1)` addresses. -/
theorem C4_fillPixel_out_of_range_writes :
    pixelOOB 4 4 3 0 = true ∧
    (fillPixel (mkEng 4 4) 3 0).image ≠ (mkEng 4 4).image := by
  constructor <;> decide

/-- The flat index `w*(y + h/2) + (x + w/2)` is far from 32-bit wrap-around
when the dimensions and coordinate magnitudes are at most `2^14`. -/
theorem mathIndex_bound (w h : ℕ) (x y : ℤ)
    (hw : w ≤ 2 ^ 14) (hh : h ≤ 2 ^ 14) (hx : |x| ≤ 2 ^ 14) (hy : |y| ≤ 2 ^ 14) :
    -(2 ^ 31) < (w : ℤ) * (y + ((h / 2 : ℕ) : ℤ)) + (x + ((w / 2 : ℕ) : ℤ)) ∧
    (w : ℤ) * (y + ((h / 2 : ℕ) : ℤ)) + (x + ((w / 2 : ℕ) : ℤ)) < 2 ^ 31 := by
  have hw0 : (0 : ℤ) ≤ (w : ℤ) := Int.ofNat_nonneg _
  have hwz : (w : ℤ) ≤ 2 ^ 14 := by exact_mod_cast hw
  have hh2 : ((h / 2 : ℕ) : ℤ) ≤ 2 ^ 13 := by
    have : h / 2 ≤ 2 ^ 13 := by omega
    exact_mod_cast this
  have hh2' : (0 : ℤ) ≤ ((h / 2 : ℕ) : ℤ) := Int.ofNat_nonneg _
  have hw2 : ((w / 2 : ℕ) : ℤ) ≤ 2 ^ 13 := by
    have : w / 2 ≤ 2 ^ 13 := by omega
    exact_mod_cast this
  have hw2' : (0 : ℤ) ≤ ((w / 2 : ℕ) : ℤ) := Int.ofNat_nonneg _
  have hxb := abs_le.mp hx
  have hyb := abs_le.mp hy
  have hB : |y + ((h / 2 : ℕ) : ℤ)| ≤ 2 ^ 14 + 2 ^ 13 := by
    rw [abs_le]
    omega
  have hwB : |(w : ℤ) * (y + ((h / 2 : ℕ) : ℤ))| ≤ 2 ^ 14 * (2 ^ 14 + 2 ^ 13) := by
    rw [abs_mul, abs_of_nonneg hw0]
    exact mul_le_mul hwz hB (abs_nonneg _) (by norm_num)
  have h1 := abs_le.mp hwB
  constructor <;> omega

/-- The 32-bit unsigned index computation of `fillPixel` equals the
mathematical flat index taken modulo `2^32`. -/
theorem u32index_eq (w h : ℕ) (x y : ℤ) (hw : w < 2 ^ 32) (hh : h < 2 ^ 32) :
    ((w % 2 ^ 32 * toU32 (y + ((h % 2 ^ 32 / 2 : ℕ) : ℤ))
      + toU32 (x + ((w % 2 ^ 32 / 2 : ℕ) : ℤ))) % 2 ^ 32 : ℕ)
    = (((w : ℤ) * (y + ((h / 2 : ℕ) : ℤ)) + (x + ((w / 2 : ℕ) : ℤ)))
        % 2 ^ 32).toNat := by
  have hwm : w % 2 ^ 32 = w := Nat.mod_eq_of_lt hw
  have hhm : h % 2 ^ 32 = h := Nat.mod_eq_of_lt hh
  rw [hwm, hhm]
  have e1 : ((toU32 (y + ((h / 2 : ℕ) : ℤ)) : ℕ) : ℤ)
      = (y + ((h / 2 : ℕ) : ℤ)) % 2 ^ 32 :=
    Int.toNat_of_nonneg (Int.emod_nonneg _ (by norm_num))
  have e2 : ((toU32 (x + ((w / 2 : ℕ) : ℤ)) : ℕ) : ℤ)
      = (x + ((w / 2 : ℕ) : ℤ)) % 2 ^ 32 :=
    Int.toNat_of_nonneg (Int.emod_nonneg _ (by norm_num))
  have hz : (((w * toU32 (y + ((h / 2 : ℕ) : ℤ))
      + toU32 (x + ((w / 2 : ℕ) : ℤ))) % 2 ^ 32 : ℕ) : ℤ)
      = ((w : ℤ) * (y + ((h / 2 : ℕ) : ℤ)) + (x + ((w / 2 : ℕ) : ℤ))) % 2 ^ 32 := by
    rw [Int.natCast_mod, Nat.cast_add, Nat.cast_mul, e1, e2]
    have m1 : (y + ((h / 2 : ℕ) : ℤ)) % 2 ^ 32 ≡ y + ((h / 2 : ℕ) : ℤ)
        [ZMOD (2 ^ 32 : ℤ)] := Int.emod_emod_of_dvd _ dvd_rfl
    have m2 : (x + ((w / 2 : ℕ) : ℤ)) % 2 ^ 32 ≡ x + ((w / 2 : ℕ) : ℤ)
        [ZMOD (2 ^ 32 : ℤ)] := Int.emod_emod_of_dvd _ dvd_rfl
    have := ((Int.ModEq.refl (w : ℤ)).mul m1).add m2
    have hcast : ((2 ^ 32 : ℕ) : ℤ) = 2 ^ 32 := by norm_num
    rw [hcast]
    exact this
  omega

/-- C4 (amended) — away from 32-bit wrap-around (dimensions and coordinate
magnitudes at most `2^14`), `fillPixel` writes the fill colour at the flat
index `w*(y + h/2) + (x + w/2)` exactly when that index lies in `[0, w*h)`,
and otherwise leaves every pixel unchanged: the guard is on the flat index
only, so an out-of-range coordinate whose flat index lands in `[0, w*h)`
overwrites the aliased in-range cell instead of being dropped. -/
theorem C4_fillPixel_flat_index_guard (t : Eng) (x y : ℤ)
    (hw : t.fieldWidth ≤ 2 ^ 14) (hh : t.fieldHeight ≤ 2 ^ 14)
    (hx : |x| ≤ 2 ^ 14) (hy : |y| ≤ 2 ^ 14) :
    (fillPixel t x y).image =
      if 0 ≤ (t.fieldWidth : ℤ) * (y + ((t.fieldHeight / 2 : ℕ) : ℤ))
            + (x + ((t.fieldWidth / 2 : ℕ) : ℤ)) ∧
         (t.fieldWidth : ℤ) * (y + ((t.fieldHeight / 2 : ℕ) : ℤ))
            + (x + ((t.fieldWidth / 2 : ℕ) : ℤ))
           < ((t.fieldWidth * t.fieldHeight : ℕ) : ℤ) then
        t.image.set ((t.fieldWidth : ℤ) * (y + ((t.fieldHeight / 2 : ℕ) : ℤ))
          + (x + ((t.fieldWidth / 2 : ℕ) : ℤ))).toNat t.mainTurtle.fillColor
      else t.image := by
  obtain ⟨hb1, hb2⟩ := mathIndex_bound t.fieldWidth t.fieldHeight x y hw hh hx hy
  have hwh : t.fieldWidth * t.fieldHeight < 2 ^ 32 := by
    calc t.fieldWidth * t.fieldHeight ≤ 2 ^ 14 * 2 ^ 14 := Nat.mul_le_mul hw hh
    _ < 2 ^ 32 := by norm_num
  unfold fillPixel
  dsimp only
  rw [u32index_eq t.fieldWidth t.fieldHeight x y (by omega) (by omega)]
  set a : ℤ := (t.fieldWidth : ℤ) * (y + ((t.fieldHeight / 2 : ℕ) : ℤ))
    + (x + ((t.fieldWidth / 2 : ℕ) : ℤ)) with ha
  unfold toI32 toU32
  dsimp only
  split_ifs <;> first
    | rfl
    | (exact congrArg (fun i => t.image.set i t.mainTurtle.fillColor) (by omega))
    | (exfalso; omega)

/-- Witness for C4 (amended): `fillPixel(1000, 0)` on a fresh 4×4 engine —
the flat index 1010 is outside `[0, 16)`, so the write is dropped. -/
theorem C4_fillPixel_flat_index_guard_witness :
    (fillPixel (mkEng 4 4) 1000 0).image =
      if 0 ≤ ((mkEng 4 4).fieldWidth : ℤ)
            * ((0 : ℤ) + (((mkEng 4 4).fieldHeight / 2 : ℕ) : ℤ))
            + ((1000 : ℤ) + (((mkEng 4 4).fieldWidth / 2 : ℕ) : ℤ)) ∧
         ((mkEng 4 4).fieldWidth : ℤ)
            * ((0 : ℤ) + (((mkEng 4 4).fieldHeight / 2 : ℕ) : ℤ))
            + ((1000 : ℤ) + (((mkEng 4 4).fieldWidth / 2 : ℕ) : ℤ))
           < (((mkEng 4 4).fieldWidth * (mkEng 4 4).fieldHeight : ℕ) : ℤ) then
        (mkEng 4 4).image.set (((mkEng 4 4).fieldWidth : ℤ)
          * ((0 : ℤ) + (((mkEng 4 4).fieldHeight / 2 : ℕ) : ℤ))
          + ((1000 : ℤ) + (((mkEng 4 4).fieldWidth / 2 : ℕ) : ℤ))).toNat
          (mkEng 4 4).mainTurtle.fillColor
      else (mkEng 4 4).image :=
  C4_fillPixel_flat_index_guard (mkEng 4 4) 1000 0
    (by decide) (by decide) (by decide) (by decide)

/-! ## `drawLine`: exact plotted pixels -/

set_option maxRecDepth 1000000 in
/-- C5 — `drawLine` always issues its first plot at the start pixel
`(x0, y0)`; concretely, `drawLine(0, 0, 5, 0)` issues exactly the six plots
`(0,0) … (5,0)` (all on `y = 0`), and on a fresh 16×16 canvas (`drawPixel`
flat indices 136 … 141) those six pixels — and no others — turn into the
black stroke colour. -/
theorem C5_drawLine_six_pixels :
    (∀ x0 y0 x1 y1 : ℤ, (linePoints x0 y0 x1 y1).head? = some (x0, y0)) ∧
    linePoints 0 0 5 0 = [(0, 0), (1, 0), (2, 0), (3, 0), (4, 0), (5, 0)] ∧
    (drawLine (mkEng 16 16) 0 0 5 0).image =
      ((((((mkEng 16 16).image.set 136 ⟨0, 0, 0⟩).set 137 ⟨0, 0, 0⟩).set
        138 ⟨0, 0, 0⟩).set 139 ⟨0, 0, 0⟩).set 140 ⟨0, 0, 0⟩).set 141 ⟨0, 0, 0⟩ :=
  ⟨fun _ _ _ _ => rfl, by decide, by decide⟩

/-! ## `countDigits`: missing return statement -/

/-- C9 — `turtle.hpp`'s `countDigits` falls off the end of the function
without returning for every `number > 9` (undefined behaviour, modelled
`none`), so `drawInt(123)` has no defined digit count, while the intended
computation — kept inline by the sibling variants and described by the
specification — gives `ceil(log10 123) = 3` digits, and `drawInt(0)` renders
exactly one digit glyph (the `0` glyph at index 0). -/
theorem C9_countDigits_missing_return :
    countDigits 123 = none ∧ drawInt (mkEng 16 16) 123 = none ∧
    countDigits 0 = some 1 ∧
    drawInt (mkEng 16 16) 0 = some (drawDigit (mkEng 16 16) 0 0) ∧
    ndigitsOf 123 = 3 ∧ ndigitsOf 0 = 1 := by
  refine ⟨rfl, rfl, rfl, rfl, ?_, rfl⟩
  show ceilLog10 123 = 3
  unfold ceilLog10
  rw [if_neg (by norm_num), Nat.clog_of_two_le (by norm_num) (by norm_num),
    Nat.clog_of_two_le (by norm_num) (by norm_num),
    Nat.clog_of_two_le (by norm_num) (by norm_num)]
  norm_num

/-! ## `endFill`: the capacity abort -/

set_option maxRecDepth 1000000 in
/-- C6 counterexample — a 128-vertex zigzag polygon: each of its scanlines
produces at most 128 intercepts (scanline 0 produces exactly 128, never
more — an edge contributes at most one intercept and there are only 128
edges), yet `endFill` aborts, because the capacity check
`nodes >= MAX_POLYGON_VERTICES` fires as soon as the intercept count
*reaches* 128, not only beyond it. -/
theorem C6_endFill_aborts_at_capacity :
    rowsRange zigzagEng.fieldHeight = [-1, 0] ∧
    interceptCount zigzagEng.polyY (-1) = 0 ∧
    interceptCount zigzagEng.polyY 0 = 128 ∧
    endFill zigzagEng = none := by
  refine ⟨by decide, by decide, by decide, by rfl⟩

/-- The intercept-collection fold never aborts while the running node count
stays below the capacity. -/
theorem scanFold_some (pX pY : List ℚ) (n : ℕ) (y : ℤ) :
    ∀ (is : List ℕ) (nodes : List ℚ),
      nodes.length + is.countP (edgeCross pY n y) ≤ 127 →
      ∃ nodes', is.foldl (scanStep pX pY n y) (some nodes) = some nodes' := by
  intro is
  induction is with
  | nil => exact fun nodes _ => ⟨nodes, rfl⟩
  | cons i is ih =>
    intro nodes h
    rw [List.countP_cons] at h
    by_cases hc : edgeCross pY n y i = true
    · have hstep : scanStep pX pY n y (some nodes) i
          = some (nodes ++ [edgeInterceptX pX pY n y i]) := by
        unfold scanStep
        dsimp only
        rw [if_pos hc, if_neg (by simp only [List.length_append,
          List.length_singleton]; simp only [hc, if_true] at h; omega)]
      rw [List.foldl_cons, hstep]
      apply ih
      simp only [List.length_append, List.length_singleton]
      simp only [hc, if_true] at h
      omega
    · have hstep : scanStep pX pY n y (some nodes) i = some nodes := by
        unfold scanStep
        dsimp only
        rw [if_neg hc, if_neg (by simp only [hc, if_false] at h; omega)]
      rw [List.foldl_cons, hstep]
      apply ih
      simp only [hc, if_false] at h
      omega

/-- A scanline whose intercept count is at most 127 is collected without
aborting. -/
theorem scanNodes_isSome (pX pY : List ℚ) (y : ℤ)
    (h : interceptCount pY y ≤ 127) : (scanNodes pX pY y).isSome := by
  unfold scanNodes
  obtain ⟨nodes', hn⟩ := scanFold_some pX pY pY.length y (List.range pY.length)
    [] (by simpa [interceptCount] using h)
  rw [hn]
  rfl

theorem fillRow_isSome (t : Eng) (y : ℤ)
    (h : interceptCount t.polyY y ≤ 127) : ∃ t', fillRow t y = some t' := by
  have hs := scanNodes_isSome t.polyX t.polyY y h
  unfold fillRow
  rcases hn : scanNodes t.polyX t.polyY y with _ | nodes
  · rw [hn] at hs
    exact absurd hs (by simp)
  · exact ⟨_, rfl⟩

theorem foldlM_fillRow_isSome : ∀ (rows : List ℤ) (t : Eng),
    (∀ y ∈ rows, interceptCount t.polyY y ≤ 127) →
    ∃ t', List.foldlM fillRow t rows = some t' := by
  intro rows
  induction rows with
  | nil => exact fun t _ => ⟨t, rfl⟩
  | cons y rows ih =>
    intro t h
    obtain ⟨t1, h1⟩ := fillRow_isSome t y (h y (by simp))
    obtain ⟨t2, h2⟩ := ih t1 (fun z hz => by
      rw [(fillRow_frame t t1 y h1).2.2.2.1]
      exact h z (by simp [hz]))
    refine ⟨t2, ?_⟩
    rw [List.foldlM_cons, h1]
    simpa using h2

/-- C6 (amended) — `endFill` never aborts on a polygon state whose scanlines
each produce at most **127** intercepts; the process-aborting diagnostic
fires exactly when a scanline's intercept count reaches the 128 capacity
(which the counterexample shows is reachable), and since each of the at most
128 polygon edges contributes at most one intercept per scanline, more than
128 intercepts — the situation the claim describes — can never occur, so the
list is indeed never silently truncated. -/
theorem C6_endFill_no_abort_below_capacity (t : Eng)
    (h : ∀ y ∈ rowsRange t.fieldHeight, interceptCount t.polyY y ≤ 127) :
    (endFill t).isSome := by
  obtain ⟨t1, h1⟩ := foldlM_fillRow_isSome (rowsRange t.fieldHeight) t h
  unfold endFill
  rw [h1]
  rfl

/-- Witness for C6 (amended): a 4-vertex square polygon on a 2×2 field —
every scanline collects at most 2 intercepts, and `endFill` completes. -/
theorem C6_endFill_no_abort_witness : (endFill squareEng).isSome :=
  C6_endFill_no_abort_below_capacity squareEng (by decide)

/-! ## BMP serialization round-trip -/

theorem bytesPerLine_ge (w : ℕ) : 3 * w ≤ bytesPerLine w := by
  unfold bytesPerLine
  omega

theorem encodePixels_length (row : List Rgb) :
    (encodePixels row).length = 3 * row.length := by
  induction row with
  | nil => rfl
  | cons p ps ih =>
    show (encodePixels ps).length + 3 = _
    rw [ih, List.length_cons]
    ring

theorem decodePixels_encodePixels (row : List Rgb) (rest : List ℕ) :
    decodePixels row.length (encodePixels row ++ rest) = row := by
  induction row with
  | nil => rfl
  | cons p ps ih =>
    show decodePixels (ps.length + 1)
      (p.blue :: p.green :: p.red :: (encodePixels ps ++ rest)) = p :: ps
    rw [decodePixels, ih]

theorem encodeLine_length (w : ℕ) (row : List Rgb) (h : row.length = w) :
    (encodeLine w row).length = bytesPerLine w := by
  have hge := bytesPerLine_ge w
  simp only [encodeLine, List.length_append, List.length_replicate,
    encodePixels_length, h]
  omega

/-- Parsing the encoded pixel data back — respecting the row padding and the
blue-green-red channel order — reconstructs the flat pixel buffer exactly. -/
theorem decodeRows_encodeRows (w h : ℕ) (img : List Rgb)
    (hl : img.length = w * h) :
    decodeRows w h (encodeRows w h img) = img := by
  induction h generalizing img with
  | zero =>
    have : img = [] := List.eq_nil_of_length_eq_zero (by omega)
    subst this
    rfl
  | succ h ih =>
    rw [Nat.mul_succ] at hl
    have htake : (img.take w).length = w := by
      rw [List.length_take]
      omega
    show decodeRows w (h + 1)
      (encodeLine w (img.take w) ++ encodeRows w h (img.drop w)) = img
    unfold decodeRows
    have hdp : decodePixels w
        (encodeLine w (img.take w) ++ encodeRows w h (img.drop w))
        = img.take w := by
      have hrt := decodePixels_encodePixels (img.take w)
        (List.replicate (bytesPerLine w - 3 * w) 0 ++ encodeRows w h (img.drop w))
      rw [htake] at hrt
      rw [encodeLine, List.append_assoc]
      exact hrt
    have hdr : (encodeLine w (img.take w)
        ++ encodeRows w h (img.drop w)).drop (bytesPerLine w)
        = encodeRows w h (img.drop w) := by
      rw [← encodeLine_length w (img.take w) htake]
      exact List.drop_left _ _
    rw [hdp, hdr, ih (img.drop w) (by rw [List.length_drop]; omega),
      List.take_append_drop]

/-- C7 — `saveBMP`'s header records the configured width and height, 24 bits
per pixel and compression 0, and parsing the pixel data back (each row
padded to a multiple of 4 bytes, channels in blue-green-red order)
reconstructs the in-memory buffer exactly: save-then-parse is the identity
on the buffer. -/
theorem C7_saveBMP_roundtrip (w h : ℕ) (img : List Rgb)
    (hl : img.length = w * h) :
    (mkHeader w h).biWidth = w ∧ (mkHeader w h).biHeight = h ∧
    (mkHeader w h).biBitCount = 24 ∧ (mkHeader w h).biCompression = 0 ∧
    decodeRows w h (encodeRows w h img) = img :=
  ⟨rfl, rfl, rfl, rfl, decodeRows_encodeRows w h img hl⟩

/-- Witness for C7: a 2×2 image of four distinct pixels survives the
save-then-parse round-trip. -/
theorem C7_saveBMP_roundtrip_witness :
    (mkHeader 2 2).biWidth = 2 ∧ (mkHeader 2 2).biHeight = 2 ∧
    (mkHeader 2 2).biBitCount = 24 ∧ (mkHeader 2 2).biCompression = 0 ∧
    decodeRows 2 2 (encodeRows 2 2
        [⟨1, 2, 3⟩, ⟨4, 5, 6⟩, ⟨7, 8, 9⟩, ⟨10, 11, 12⟩])
      = [⟨1, 2, 3⟩, ⟨4, 5, 6⟩, ⟨7, 8, 9⟩, ⟨10, 11, 12⟩] :=
  C7_saveBMP_roundtrip 2 2 [⟨1, 2, 3⟩, ⟨4, 5, 6⟩, ⟨7, 8, 9⟩, ⟨10, 11, 12⟩] rfl
